import Mathlib

/-!
Shallow embedding of the bibloclean data-cleaning pipeline
(`src/bibloclean/limpiar_tablas.py`, `src/modelamiento_topicos.py`,
`src/src/modelamiento_topicos.py`) and proofs about the claims of its
specification.

Strings are modelled as Lean `String`/`List Char`; the Python string
primitives used by the source (strip, rstrip, split, replace, title,
the concrete regular expressions appearing in the code) are embedded as
executable functions below.  Case mapping and the character classes of
the regular expressions are modelled for the ASCII range plus the
accented Latin letters that actually occur in the data and in the
tables of the source; this matches the Python behaviour on every input the
pipeline manipulates.  Fallible code is embedded with `Option`: a
function of the source that can raise on some input returns `none`
exactly on the inputs where the Python code raises.
-/

/-- Whitespace characters of Python `str.strip` / `\s` (ASCII range). -/
def isPyWs (c : Char) : Bool :=
  c = ' ' || c = '\t' || c = '\n' || c = '\x0d' || c = '\x0b' || c = '\x0c'

/-- Accented Latin letters occurring in the data and tables of the pipeline. -/
def acentosMin : List (Char × Char) :=
  [('á', 'a'), ('é', 'e'), ('í', 'i'), ('ó', 'o'), ('ú', 'u'), ('ü', 'u'), ('ñ', 'n')]

def acentosMay : List (Char × Char) :=
  [('Á', 'A'), ('É', 'E'), ('Í', 'I'), ('Ó', 'O'), ('Ú', 'U'), ('Ü', 'U'), ('Ñ', 'N')]

/-- Python `str.lower` on one character (ASCII plus accented Latin letters). -/
def lowerChar (c : Char) : Char :=
  if 'A' ≤ c ∧ c ≤ 'Z' then Char.ofNat (c.toNat + 32)
  else match c with
    | 'Á' => 'á' | 'É' => 'é' | 'Í' => 'í' | 'Ó' => 'ó'
    | 'Ú' => 'ú' | 'Ü' => 'ü' | 'Ñ' => 'ñ'
    | _ => c

/-- Python `str.upper` on one character (ASCII plus accented Latin letters). -/
def upperChar (c : Char) : Char :=
  if 'a' ≤ c ∧ c ≤ 'z' then Char.ofNat (c.toNat - 32)
  else match c with
    | 'á' => 'Á' | 'é' => 'É' | 'í' => 'Í' | 'ó' => 'Ó'
    | 'ú' => 'Ú' | 'ü' => 'Ü' | 'ñ' => 'Ñ'
    | _ => c

/-- A cased letter (`str.isalpha` over the modelled alphabet). -/
def isLetterT (c : Char) : Bool :=
  c.isAlpha || (acentosMin.any fun p => p.1 = c) || (acentosMay.any fun p => p.1 = c)

/-- An uppercase cased letter (for Python `str.isupper`). -/
def esMayusChar (c : Char) : Bool :=
  ('A' ≤ c ∧ c ≤ 'Z' : Bool) || (acentosMay.any fun p => p.1 = c)

/-- Python `str.strip()` on a character list. -/
def pyStrip (l : List Char) : List Char :=
  ((l.dropWhile isPyWs).reverse.dropWhile isPyWs).reverse

/-- Python `str.strip()` on a `String`. -/
def pyStripStr (s : String) : String := String.mk (pyStrip s.toList)

/-- Python `str.rstrip(chars)`: drop trailing characters of the given set. -/
def pyRstripSet (l : List Char) (set : List Char) : List Char :=
  (l.reverse.dropWhile fun c => set.contains c).reverse

/-- Python `str.strip(chars)`: drop the given characters at both ends. -/
def pyStripSet (l : List Char) (set : List Char) : List Char :=
  ((l.dropWhile fun c => set.contains c).reverse.dropWhile fun c => set.contains c).reverse

/-- Drop trailing characters satisfying a predicate (`re.sub(p + "$", "")` for a
character-class pattern `p`). -/
def pyRstripPred (l : List Char) (p : Char → Bool) : List Char :=
  (l.reverse.dropWhile p).reverse

/-- Python `str.startswith` (`String.startsWith` via the character lists). -/
def pyStartsWith (s pre : String) : Bool := pre.toList.isPrefixOf s.toList

/-- Python `str.lower` on a whole string. -/
def pyLower (s : String) : String := String.mk (s.toList.map lowerChar)

/-- Python `str.split(sep)` for one separator character: `"".split(sep) = [""]`,
empty pieces are kept. -/
def splitChar (sep : Char) : List Char → List (List Char)
  | [] => [[]]
  | c :: cs =>
    if c = sep then [] :: splitChar sep cs
    else
      match splitChar sep cs with
      | h :: t => (c :: h) :: t
      | [] => [[c]]

/-- Maximal runs of characters satisfying `p` (the pieces of `str.split()` when
`p` is non-whitespace). `cur` is the current run, reversed. -/
def runsAux (p : Char → Bool) : List Char → List Char → List (List Char)
  | cur, [] => if cur.isEmpty then [] else [cur.reverse]
  | cur, c :: cs =>
    if p c then runsAux p (c :: cur) cs
    else if cur.isEmpty then runsAux p [] cs
    else cur.reverse :: runsAux p [] cs

/-- Python `" ".join(s.split())`: collapse whitespace runs, dropping the outer ones. -/
def collapseWs (l : List Char) : List Char :=
  List.intercalate [' '] (runsAux (fun c => !isPyWs c) [] l)

/-- Substring test (`needle in haystack` of Python). -/
def containsList (sub : List Char) : List Char → Bool
  | [] => sub.isEmpty
  | c :: cs => sub.isPrefixOf (c :: cs) || containsList sub cs

/-- Python `str.replace(pat, rep)`: replace non-overlapping occurrences left to
right.  The fuel is the input length; every step consumes at least one input
character, so fuel equal to the length always suffices.  An empty pattern never
occurs in the source, the guard keeps the function total. -/
def replaceFuel (pat rep : List Char) : Nat → List Char → List Char
  | _, [] => []
  | 0, l => l
  | fuel + 1, c :: cs =>
    if pat.isEmpty then c :: cs
    else if pat.isPrefixOf (c :: cs) then rep ++ replaceFuel pat rep fuel ((c :: cs).drop pat.length)
    else c :: replaceFuel pat rep fuel cs

/-- Python `str.replace` on `String`s. -/
def pyReplace (s pat rep : String) : String :=
  String.mk (replaceFuel pat.toList rep.toList s.toList.length s.toList)

/-- Python `str.title()`: a letter is uppercased when the previous character is
not a letter, lowercased otherwise. -/
def pyTitleAux : Bool → List Char → List Char
  | _, [] => []
  | prevLetter, c :: cs =>
    (if isLetterT c then (if prevLetter then lowerChar c else upperChar c) else c)
      :: pyTitleAux (isLetterT c) cs

def pyTitle (s : String) : String := String.mk (pyTitleAux false s.toList)

/-- Embeds Python `list(enumerate(l, n))`. -/
def enumFromL (n : Nat) : List α → List (Nat × α)
  | [] => []
  | x :: xs => (n, x) :: enumFromL (n + 1) xs

/-- Python `max` with a comparison: fold keeping the current best, replacing it
only on a strictly better element, hence ties keep the earliest element. -/
def pyMaxBy (lt : α → α → Bool) (x : α) (l : List α) : α :=
  l.foldl (fun b y => if lt b y then y else b) x

theorem pyMaxBy_mem (lt : α → α → Bool) (x : α) (l : List α) :
    pyMaxBy lt x l ∈ x :: l := by
  induction l generalizing x with
  | nil => simp [pyMaxBy]
  | cons y ys ih =>
    simp only [pyMaxBy, List.foldl_cons]
    by_cases h : lt x y
    · simp only [h, if_true]
      have h2 := ih y
      simp only [pyMaxBy] at h2
      rcases List.mem_cons.1 h2 with h1 | h1 <;> simp [h1]
    · simp only [h]
      have h2 := ih x
      simp only [pyMaxBy] at h2
      rcases List.mem_cons.1 h2 with h1 | h1 <;> simp [h1]

theorem pyMaxBy_congr (lt₁ lt₂ : α → α → Bool) (x : α) (l : List α)
    (h : ∀ a ∈ x :: l, ∀ b ∈ x :: l, lt₁ a b = lt₂ a b) :
    pyMaxBy lt₁ x l = pyMaxBy lt₂ x l := by
  induction l generalizing x with
  | nil => simp [pyMaxBy]
  | cons y ys ih =>
    simp only [pyMaxBy, List.foldl_cons]
    have hxy : lt₁ x y = lt₂ x y := h x (by simp) y (by simp)
    rw [hxy]
    by_cases hc : lt₂ x y
    · simp only [hc, if_true]
      exact ih y (fun a ha b hb =>
        h a (by rcases List.mem_cons.1 ha with h1 | h1 <;> simp [h1])
          b (by rcases List.mem_cons.1 hb with h1 | h1 <;> simp [h1]))
    · simp only [hc]
      exact ih x (fun a ha b hb =>
        h a (by rcases List.mem_cons.1 ha with h1 | h1 <;> simp [h1])
          b (by rcases List.mem_cons.1 hb with h1 | h1 <;> simp [h1]))

theorem pyMaxBy_nil (lt : α → α → Bool) (x : α) : pyMaxBy lt x [] = x := rfl

theorem pyMaxBy_cons (lt : α → α → Bool) (x y : α) (ys : List α) :
    pyMaxBy lt x (y :: ys) = if lt x y then pyMaxBy lt y ys else pyMaxBy lt x ys := by
  by_cases h : lt x y <;> simp [pyMaxBy, h]

theorem le_pyMaxBy {γ : Type*} [LinearOrder γ] (f : α → γ) (x : α) (l : List α) :
    f x ≤ f (pyMaxBy (fun a b => decide (f a < f b)) x l) := by
  induction l generalizing x with
  | nil => simp [pyMaxBy]
  | cons y ys ih =>
    rw [pyMaxBy_cons]
    by_cases h : f x < f y
    · rw [if_pos (by simpa using h)]
      exact le_trans (le_of_lt h) (ih y)
    · rw [if_neg (by simpa using h)]
      exact ih x

/-- Decomposition of a Python `max(..., key=f)` fold: the list splits around the
returned element; everything before it is strictly smaller, everything after it
is at most it (so the first maximum is returned). -/
theorem pyMaxBy_spec {γ : Type*} [LinearOrder γ] (f : α → γ) (x : α) (l : List α) :
    ∃ pre post, x :: l = pre ++ pyMaxBy (fun a b => decide (f a < f b)) x l :: post ∧
      (∀ u ∈ pre, f u < f (pyMaxBy (fun a b => decide (f a < f b)) x l)) ∧
      (∀ v ∈ post, f v ≤ f (pyMaxBy (fun a b => decide (f a < f b)) x l)) := by
  induction l generalizing x with
  | nil => exact ⟨[], [], by simp [pyMaxBy], by simp, by simp⟩
  | cons y ys ih =>
    rw [pyMaxBy_cons]
    by_cases h : f x < f y
    · rw [if_pos (by simpa using h)]
      obtain ⟨pre, post, heq, hpre, hpost⟩ := ih y
      refine ⟨x :: pre, post, by rw [List.cons_append, ← heq], ?_, hpost⟩
      intro u hu
      rcases List.mem_cons.1 hu with rfl | hu'
      · exact lt_of_lt_of_le h (le_pyMaxBy f y ys)
      · exact hpre u hu'
    · rw [if_neg (by simpa using h)]
      obtain ⟨pre, post, heq, hpre, hpost⟩ := ih x
      rcases pre with _ | ⟨p, pre'⟩
      · obtain ⟨hx, hys⟩ := List.cons.injEq .. ▸ heq
        refine ⟨[], y :: ys, ?_, by simp, ?_⟩
        · rw [List.nil_append, ← hx]
        · intro v hv
          rcases List.mem_cons.1 hv with rfl | hv'
          · exact hx ▸ le_of_not_lt h
          · exact hpost v (hys ▸ hv')
      · obtain ⟨hx, hys⟩ := List.cons.injEq .. ▸ (by simpa using heq :
          x :: ys = p :: (pre' ++ pyMaxBy (fun a b => decide (f a < f b)) x ys :: post))
        refine ⟨x :: y :: pre', post, ?_, ?_, hpost⟩
        · rw [List.cons_append, List.cons_append, ← hys]
        · intro u hu
          have hp : f p < f (pyMaxBy (fun a b => decide (f a < f b)) x ys) :=
            hpre p (by simp)
          rcases List.mem_cons.1 hu with rfl | hu'
          · exact hx ▸ hp
          · rcases List.mem_cons.1 hu' with rfl | hu''
            · exact lt_of_le_of_lt (le_of_not_lt h) (hx ▸ hp)
            · exact hpre u (by simp [hu''])

theorem pyMaxBy_le {γ : Type*} [LinearOrder γ] (f : α → γ) (x : α) (l : List α) :
    ∀ v ∈ x :: l, f v ≤ f (pyMaxBy (fun a b => decide (f a < f b)) x l) := by
  obtain ⟨pre, post, heq, hpre, hpost⟩ := pyMaxBy_spec f x l
  intro v hv
  rw [heq] at hv
  rcases List.mem_append.1 hv with h1 | h1
  · exact le_of_lt (hpre v h1)
  · rcases List.mem_cons.1 h1 with rfl | h2
    · exact le_refl _
    · exact hpost v h2

/-- The element Python `max(..., key=f)` returns is the first element attaining
the maximum of `f`. -/
theorem pyMaxBy_find? {γ : Type*} [LinearOrder γ] (f : α → γ) (x : α) (l : List α) :
    (x :: l).find?
        (fun v => decide (f (pyMaxBy (fun a b => decide (f a < f b)) x l) ≤ f v)) =
      some (pyMaxBy (fun a b => decide (f a < f b)) x l) := by
  obtain ⟨pre, post, heq, hpre, hpost⟩ := pyMaxBy_spec f x l
  rw [heq]
  have : ∀ pre' : List α,
      (∀ u ∈ pre', f u < f (pyMaxBy (fun a b => decide (f a < f b)) x l)) →
      (pre' ++ pyMaxBy (fun a b => decide (f a < f b)) x l :: post).find?
          (fun v => decide (f (pyMaxBy (fun a b => decide (f a < f b)) x l) ≤ f v)) =
        some (pyMaxBy (fun a b => decide (f a < f b)) x l) := by
    intro pre'
    induction pre' with
    | nil => intro _; simp [List.find?]
    | cons p ps ih =>
      intro hps
      have hp : ¬ f (pyMaxBy (fun a b => decide (f a < f b)) x l) ≤ f p :=
        not_le_of_lt (hps p (by simp))
      simp only [List.cons_append, List.find?]
      rw [decide_eq_false hp]
      exact ih (fun u hu => hps u (by simp [hu]))
  exact this pre hpre

/-!
## Row partitioning (`BibliotecaDataProcessor.filtrar_registros_con_biblioteca`)

A table is its column names plus its rows; each row is an association list
from column name to an optional cell value (`none` models a pandas null).
-/

/-- One table row: column name to optional cell value. -/
abbrev Fila := List (String × Option String)

structure DataFrame where
  cols : List String
  rows : List Fila

/-- The configured library-holding columns (`columnas_esperadas["bibliotecas"]`). -/
def bibliotecasEsperadas : List String :=
  ["Biblioteca_1", "Biblioteca_2", "Biblioteca_3", "Biblioteca_4",
   "Biblioteca_5", "Biblioteca_6", "Biblioteca_7"]

/-- The expected library columns that the loaded table actually has
(`obtener_columnas_disponibles()["bibliotecas"]`). -/
def columnasBibliotecaDisponibles (df : DataFrame) : List String :=
  bibliotecasEsperadas.filter fun c => df.cols.contains c

def getCell (r : Fila) (c : String) : Option String :=
  (r.lookup c).getD none

/-- The row mask `datos[columnas_biblioteca].notnull().any(axis=1)`. -/
def tieneBiblioteca (bibCols : List String) (r : Fila) : Bool :=
  bibCols.any fun c => (getCell r c).isSome

/-- Embeds `filtrar_registros_con_biblioteca`: when no library column is present the
whole table is returned as the valid partition with an empty discarded
partition; otherwise rows satisfying the mask are valid and the rest are
discarded. -/
def filtrarRegistrosConBiblioteca (df : DataFrame) : List Fila × List Fila :=
  let bibCols := columnasBibliotecaDisponibles df
  if bibCols = [] then (df.rows, [])
  else (df.rows.filter (tieneBiblioteca bibCols),
        df.rows.filter fun r => !(tieneBiblioteca bibCols r))

theorem length_filter_add_length_filter_not (p : α → Bool) (l : List α) :
    (l.filter p).length + (l.filter fun x => !(p x)).length = l.length := by
  induction l with
  | nil => simp
  | cons x xs ih =>
    by_cases h : p x <;> simp [List.filter_cons, h, Nat.succ_eq_add_one, ← ih] <;> omega

theorem count_filter_add_count_filter_not [BEq α] (p : α → Bool) (l : List α) (a : α) :
    (l.filter p).count a + (l.filter fun x => !(p x)).count a = l.count a := by
  induction l with
  | nil => simp
  | cons x xs ih =>
    by_cases h : p x
    · rw [List.filter_cons_of_pos h, List.filter_cons_of_neg (by simp [h])]
      simp only [List.count_cons]
      omega
    · rw [List.filter_cons_of_neg (by simp [h]), List.filter_cons_of_pos (by simp [h])]
      simp only [List.count_cons]
      omega

/-!
## Date normalizer (`_normalizar_fecha_publicacion`)

Cleanup:  `re.sub(r"[;#©\\]", "")`, `re.sub(r"[\[\]\?]", "")`,
`re.sub(r"c|circa|Ariel|Aprox\.?", "", flags=IGNORECASE)`, `rstrip(".")`,
then `re.findall(r"\b\d{4}\b", ...)` and the string `max` of the findings.
-/

/-- One left-to-right pass of `re.sub(r"c|circa|Ariel|Aprox\.?", "", re.IGNORECASE)`.
At each position the regex alternatives are tried in order; the alternative `c`
matches every `c`/`C` (so the alternative `circa` is unreachable), then `Ariel`
and `Aprox` with an optional dot are matched case-insensitively.  Fuel is the
input length; each step consumes at least one character. -/
def subCircaAux : Nat → List Char → List Char
  | _, [] => []
  | 0, l => l
  | fuel + 1, c :: cs =>
    if c = 'c' ∨ c = 'C' then subCircaAux fuel cs
    else
      match cs with
      | c2 :: c3 :: c4 :: c5 :: rest =>
        if lowerChar c = 'a' ∧ lowerChar c2 = 'r' ∧ lowerChar c3 = 'i' ∧
            lowerChar c4 = 'e' ∧ lowerChar c5 = 'l' then subCircaAux fuel rest
        else if lowerChar c = 'a' ∧ lowerChar c2 = 'p' ∧ lowerChar c3 = 'r' ∧
            lowerChar c4 = 'o' ∧ lowerChar c5 = 'x' then
          match rest with
          | '.' :: rest2 => subCircaAux fuel rest2
          | _ => subCircaAux fuel rest
        else c :: subCircaAux fuel cs
      | _ => c :: subCircaAux fuel cs

/-- A word character of the regex `\b` boundary (`\w`), over the modelled alphabet. -/
def isWordChar (c : Char) : Bool :=
  c.isAlphanum || c = '_' || isLetterT c

/-- The matches of `re.findall(r"\b\d{4}\b", s)`: the maximal word-character
runs consisting of exactly four digits. -/
def yearTokens (l : List Char) : List (List Char) :=
  (runsAux isWordChar [] l).filter fun r => r.length = 4 && r.all Char.isDigit

/-- The character cleanup of `_normalizar_fecha_publicacion` before year extraction. -/
def limpiarFecha (s : String) : List Char :=
  let l := s.toList.filter fun c => !([';', '#', '©', '\\'].contains c)
  let l := l.filter fun c => !(['[', ']', '?'].contains c)
  let l := subCircaAux l.length l
  pyRstripSet l ['.']

/-- Python `<` on strings (lexicographic on character code points). -/
def charListLt : List Char → List Char → Bool
  | [], [] => false
  | [], _ :: _ => true
  | _ :: _, [] => false
  | a :: as, b :: bs => if a < b then true else if b < a then false else charListLt as bs

/-- Numeric value of a digit string. -/
def natVal : List Char → Nat
  | [] => 0
  | c :: cs => (c.toNat - 48) * 10 ^ cs.length + natVal cs

/-- Embeds `_normalizar_fecha_publicacion` on a non-null cell: `none` is the `np.nan`
result returned when no four-digit year is found, otherwise the Python string
`max` of the year tokens. -/
def normalizarFechaStr (s : String) : Option String :=
  match yearTokens (limpiarFecha s) with
  | [] => none
  | t :: ts => some (String.mk (pyMaxBy charListLt t ts))

/-- Embeds `_normalizar_fecha_publicacion`: a null cell (`pd.isna`) is returned as null. -/
def normalizarFechaPublicacion : Option String → Option String
  | none => none
  | some s => normalizarFechaStr s

/-!
## Dewey normalizer (`_normalizar_numero_clasificacion_dewey`)
-/

/-- The group of `re.search(r"(?:^R\s*)?(\d+)", cleaned)` where `cleaned`
contains only digits and `R`: the first maximal digit run. -/
def primeraRachaDigitos : List Char → Option (List Char)
  | [] => none
  | c :: cs => if c.isDigit then some (c :: cs.takeWhile Char.isDigit) else primeraRachaDigitos cs

/-- Embeds `re.sub(r"[^\dR]", "", raw)`. -/
def limpiarDewey (raw : String) : List Char :=
  raw.toList.filter fun c => c.isDigit || c = 'R'

/-- Embeds `_normalizar_numero_clasificacion_dewey`.  Note the order of the source:
the digit-run search runs first and returns `""` when it fails, so an input
that starts with `R` but has no digit anywhere yields `""`, not `"R"`. -/
def normalizarNumeroClasificacionDewey (raw : String) : String :=
  if raw = "" then ""
  else
    match primeraRachaDigitos (limpiarDewey raw) with
    | none => ""
    | some num =>
      if pyStartsWith (pyStripStr raw) "R" then "R"
      else if num.length < 3 ∨ num.headD 'x' = '0' then "0"
      else String.mk [num.headD 'x', '0', '0']

/-- The Dewey normalizer applied to a table cell.  The source has no null guard:
on a pandas null (a `nan` float, which is truthy) it calls `re.sub` on a
non-string and raises `TypeError`; the `none` result models that exception. -/
def normalizarDeweyCelda : Option String → Option String
  | none => none
  | some s => some (normalizarNumeroClasificacionDewey s)

/-!
## Place normalizer (`_normalizar_lugar_publicacion`)
-/

/-- Embeds `re.sub(r"\s*\([^)]*\)", "", l)` with fuel: a parenthesised group together
with the whitespace run before it is removed when a closing parenthesis exists. -/
def quitarParentesisWsAux : Nat → List Char → List Char
  | _, [] => []
  | 0, l => l
  | fuel + 1, c :: cs =>
    if c = '(' then
      match cs.dropWhile (fun d => d ≠ ')') with
      | ')' :: rest => quitarParentesisWsAux fuel rest
      | _ => c :: quitarParentesisWsAux fuel cs
    else if isPyWs c then
      match (c :: cs).dropWhile isPyWs with
      | '(' :: inner =>
        (match inner.dropWhile (fun d => d ≠ ')') with
         | ')' :: rest => quitarParentesisWsAux fuel rest
         | _ => c :: quitarParentesisWsAux fuel cs)
      | _ => c :: quitarParentesisWsAux fuel cs
    else c :: quitarParentesisWsAux fuel cs

def quitarParentesisWs (l : List Char) : List Char := quitarParentesisWsAux l.length l

/-- The city alias table of `_normalizar_lugar_publicacion`, in source order. -/
def normalizacionesCiudades : List (String × String) :=
  [("Santafé de Bogotá", "Bogotá"),
   ("Bogota", "Bogotá"),
   ("Cartagena de Indias", "Cartagena"),
   ("México", "Ciudad de México"),
   ("Mexico", "Ciudad de México"),
   ("Ciudad de Ciudad de México", "Ciudad de México"),
   ("Köln", "Colonia"),
   ("Koln", "Colonia"),
   ("Salmanca", "Salamanca"),
   ("New York", "Nueva York")]

/-- Per-city normalization step of `_normalizar_lugar_publicacion`: every alias
test and replacement is applied to the original `ciudad`, so the last matching
alias wins; then digits are stripped, the result is stripped, and unidentified
markers are replaced by the sentinel. -/
def normalizarCiudad (ciudad : String) : String :=
  let cn := normalizacionesCiudades.foldl
    (fun acc par => if containsList par.1.toList ciudad.toList then pyReplace ciudad par.1 par.2 else acc)
    ciudad
  let cn := pyStripStr (String.mk (cn.toList.filter fun c => !c.isDigit))
  if containsList "no identificado".toList (cn.toList.map lowerChar) ||
     containsList "##".toList (cn.toList.map lowerChar) ||
     pyStartsWith cn "#" then "Lugar no identificado"
  else cn

/-- Embeds `_normalizar_lugar_publicacion`: returns the pair of at most two cities,
with the sentinel `("Lugar no identificado", "")` for null input and for an
empty or unidentified first city. -/
def normalizarLugarPublicacion : Option String → String × String
  | none => ("Lugar no identificado", "")
  | some v0 =>
    let v := pyStripStr v0
    let v := pyReplace v ";" ","
    let v := pyReplace v ":" ""
    let v := pyReplace v "[" ""
    let v := pyReplace v "]" ""
    let v := pyReplace v "©" ""
    let v := String.mk (quitarParentesisWs v.toList)
    let v := String.mk (collapseWs v.toList)
    let ciudades := (splitChar ',' v.toList).map fun l => pyStripStr (String.mk l)
    let cnorm := (ciudades.take 2).map normalizarCiudad
    match cnorm with
    | [] => ("Lugar no identificado", "")
    | [c1] => if c1 = "" then ("Lugar no identificado", "") else (c1, "")
    | c1 :: c2 :: _ => if c1 = "" then ("Lugar no identificado", "") else (c1, c2)

/-!
## Title normalizer (`_normalizar_titulo`)
-/

/-- The punctuation class `[/,:;.]` of the spacing regexes in `_normalizar_titulo`. -/
def esPuntuacionTitulo (c : Char) : Bool :=
  c = '/' || c = ',' || c = ':' || c = ';' || c = '.'

/-- Embeds `re.sub(r"\s+([/,:;.])", r"\1", l)`: a whitespace run immediately followed
by one of the punctuation characters is deleted.  Recursion on the already
processed tail is sound because the first surviving character of the tail is
its first non-deleted character. -/
def subEspaciosAntesPunt : List Char → List Char
  | [] => []
  | c :: cs =>
    let r := subEspaciosAntesPunt cs
    if isPyWs c then
      match r with
      | p :: _ => if esPuntuacionTitulo p then r else c :: r
      | [] => c :: r
    else c :: r

/-- Embeds `re.sub(r"([/,:;.])\s+", r"\1 ", l)` as a three-state scan: state 1 is
"just after punctuation", state 2 is "inside the whitespace run after
punctuation" (one space already emitted). -/
def subEspaciosTrasPuntAux : Nat → List Char → List Char
  | _, [] => []
  | st, c :: cs =>
    if esPuntuacionTitulo c then c :: subEspaciosTrasPuntAux 1 cs
    else if isPyWs c then
      match st with
      | 1 => ' ' :: subEspaciosTrasPuntAux 2 cs
      | 2 => subEspaciosTrasPuntAux 2 cs
      | _ => c :: subEspaciosTrasPuntAux 0 cs
    else c :: subEspaciosTrasPuntAux 0 cs

/-- Embeds `_normalizar_titulo`.  The final acronym step of the source,
`re.sub(r"\b([A-Z])(\+\+)\b", r"\1\2", ...)`, replaces each match by itself and
is therefore the identity; it is omitted. -/
def normalizarTitulo : Option String → String
  | none => "Sin título"
  | some t =>
    if t = "" ∨ pyStripStr t = "" then "Sin título"
    else
      let l := pyStrip t.toList
      let l := l.dropWhile fun c => c.isDigit || c = ';'
      let l := pyRstripPred l fun c => c = '/' || c = ',' || c = ':' || isPyWs c
      let l := l.filter fun c => !(['#', '%', '&', '*', '{', '}', '[', ']', '^', '~'].contains c)
      let l := subEspaciosAntesPunt l
      let l := subEspaciosTrasPuntAux 0 l
      String.mk (collapseWs l)

/-!
## Author normalizer (`_normalizar_nombre_autor`)

The embedding returns `Option String`: `none` models the `IndexError` the
source raises at `partes[0]` when, after stripping titles and splitting on the
comma, no non-empty part remains (e.g. for the input `","`).  A null cell is
mapped to `"Desconocido"` by the guard, like every empty or blank string.
-/

def titulosAcademicos : List String := ["Dr.", "PhD.", "Ph.D.", "Mr.", "Mrs.", "Ms."]

def prefijosNobiliarios : List String := ["Von", "Van", "De", "Del", "La", "Las", "Los"]

/-- The part of `_normalizar_nombre_autor` after the guard, the
`strip().rstrip(".,")` cleanup and the multi-author split: title removal,
comma split, title-casing, nobiliary-prefix lowercasing, whitespace collapse. -/
def normalizarAutorResto (a : String) : Option String :=
  let a1 := titulosAcademicos.foldl (fun s t => pyReplace s t "") a
  let partes := ((splitChar ',' a1.toList).map fun l => pyStripStr (String.mk l)).filter
    fun p => p ≠ ""
  match partes with
  | [] => none
  | [p] => some (finRestantes (pyTitle p))
  | p :: q :: _ => some (finRestantes (pyTitle p ++ ", " ++ pyTitle q))
where
  /-- Nobiliary-prefix lowercasing and final whitespace collapse. -/
  finRestantes (s : String) : String :=
    let s := prefijosNobiliarios.foldl
      (fun s pre =>
        let s := pyReplace s (" " ++ pre ++ " ") (" " ++ pyLower pre ++ " ")
        if pyStartsWith s (pre ++ " ") then
          pyLower pre ++ String.mk (s.toList.drop pre.length)
        else s)
      s
    String.mk (collapseWs s.toList)

/-- One `;`-free author segment, as processed by the recursive call
`_normalizar_nombre_autor(a.strip())` of the multi-author branch: the guard
and the `strip().rstrip(".,")` cleanup followed by `normalizarAutorResto`. -/
def normalizarAutorPieza (p : String) : Option String :=
  if p = "" ∨ pyStripStr p = "" then some "Desconocido"
  else normalizarAutorResto (String.mk (pyRstripSet (pyStrip p.toList) ['.', ',']))

/-- Embeds `_normalizar_nombre_autor` on a table cell.  After the cleanup, a value
containing `;` is split and each segment is normalized independently (the
segments contain no `;`, so the recursion of the source has depth one) and the
results are joined with `"; "`; `none` models the `IndexError` of the source. -/
def normalizarNombreAutor : Option String → Option String
  | none => some "Desconocido"
  | some autor =>
    if autor = "" ∨ pyStripStr autor = "" then some "Desconocido"
    else
      let a := String.mk (pyRstripSet (pyStrip autor.toList) ['.', ','])
      if a.toList.contains ';' then
        (((splitChar ';' a.toList).map fun l => pyStripStr (String.mk l)).mapM
          normalizarAutorPieza).map (String.intercalate "; ")
      else normalizarAutorResto a

/-!
## Period normalizer (`_normalizar_periodo`)
-/

/-- Embeds `re.findall(r"\d{4}", l)`: non-overlapping four-digit chunks, scanning left
to right (an eight-digit run yields two chunks). -/
def trozosDigitos : List Char → List (List Char)
  | c1 :: c2 :: c3 :: c4 :: rest =>
    if c1.isDigit && c2.isDigit && c3.isDigit && c4.isDigit then
      [c1, c2, c3, c4] :: trozosDigitos rest
    else trozosDigitos (c2 :: c3 :: c4 :: rest)
  | _ => []

/-- The value table of `año_a_siglo_romano`, in source order. -/
def tablaRomana : List (Nat × String) :=
  [(1000, "M"), (900, "CM"), (500, "D"), (400, "CD"), (100, "C"), (90, "XC"),
   (50, "L"), (40, "XL"), (10, "X"), (9, "IX"), (5, "V"), (4, "IV"), (1, "I")]

/-- The greedy while-loop of `año_a_siglo_romano` over the value table: each
entry appends its numeral `n / v` times and continues with `n % v`; a value
larger than `n` (in particular any value when `n ≤ 0`) leaves `n` unchanged. -/
def cicloRomano : List (Nat × String) → Int → String
  | [], _ => ""
  | (v, sym) :: resto, n =>
    if (v : Int) ≤ n then
      String.join (List.replicate (n.toNat / v) sym) ++ cicloRomano resto ((n.toNat % v : Nat) : Int)
    else cicloRomano resto n

/-- Embeds `siglo = (año - 1) // 100 + 1` with Python floor division. -/
def sigloDeAnio (anio : Nat) : Int := ((anio : Int) - 1).fdiv 100 + 1

/-- Embeds `año_a_siglo_romano`. -/
def anioASigloRomano (anio : Nat) : String := cicloRomano tablaRomana (sigloDeAnio anio)

def valorLetraRomana (c : Char) : Int :=
  match c with
  | 'I' => 1 | 'V' => 5 | 'X' => 10 | 'L' => 50 | 'C' => 100 | 'D' => 500 | 'M' => 1000
  | _ => 0

/-- Embeds `valor_siglo_romano`: right-to-left subtractive evaluation of the
uppercased numeral.  The accumulator pairs the running value with the value of
the previous (right-hand) letter. -/
def valorRomanoAux : List Char → Int × Int
  | [] => (0, 0)
  | c :: cs =>
    let (acc, prev) := valorRomanoAux cs
    let cv := valorLetraRomana (upperChar c)
    (if prev ≤ cv then acc + cv else acc - cv, cv)

def valorRomano (s : String) : Int := (valorRomanoAux s.toList).1

/-- The Roman-numeral alternation of the pattern
`(?:siglos?\s*|-)(xxi|xx|...|i)`, in source order (first match wins). -/
def alternativasRomanas : List (List Char) :=
  ["xxi", "xx", "xix", "xviii", "xvii", "xvi", "xv", "xiv", "xiii", "xii", "xi",
   "x", "ix", "viii", "vii", "vi", "v", "iv", "iii", "ii", "i"].map String.toList

/-- Try the numeral alternation as a prefix of `l`; return the numeral and the rest. -/
def probarNumeral (l : List Char) : Option (List Char × List Char) :=
  alternativasRomanas.findSome? fun pat =>
    if pat.isPrefixOf l then some (pat, l.drop pat.length) else none

/-- Try one match of `(?:siglos?\s*|-)(numeral)` at the head of `l`: the regex
first tries `siglos` then `siglo` (greedy optional `s`), each followed by a
whitespace run and the numeral; otherwise a hyphen followed by the numeral. -/
def probarSiglo (l : List Char) : Option (List Char × List Char) :=
  if "siglo".toList.isPrefixOf l then
    let r1 := l.drop 5
    match r1 with
    | 's' :: r2 => probarNumeral (r2.dropWhile isPyWs) <|> probarNumeral (r1.dropWhile isPyWs)
    | _ => probarNumeral (r1.dropWhile isPyWs)
  else
    match l with
    | '-' :: r => probarNumeral r
    | _ => none

/-- Embeds `re.findall` of the century pattern: scan left to right, skipping one
character when no match starts at the current position.  Fuel is the length. -/
def buscarSiglosAux : Nat → List Char → List (List Char)
  | _, [] => []
  | 0, _ => []
  | fuel + 1, c :: cs =>
    match probarSiglo (c :: cs) with
    | some (num, rest) => num :: buscarSiglosAux fuel rest
    | none => buscarSiglosAux fuel cs

def buscarSiglos (l : List Char) : List (List Char) := buscarSiglosAux l.length l

/-- Embeds `periodo.lower().strip()` followed by `re.sub(r"\s+", " ", ...)`. -/
def limpiarPeriodo (s : String) : List Char :=
  collapseWs (pyStrip (s.toList.map lowerChar))

/-- The maximum year `max(map(int, años))` of the four-digit chunks, 0 when none. -/
def anioMaximo (t : List Char) : Nat :=
  match (trozosDigitos t).map natVal with
  | [] => 0
  | y :: ys => pyMaxBy (fun a b => decide (a < b)) y ys

/-- The Python `max(siglos, key=valor_siglo_romano)` of the found numerals. -/
def mejorSiglo (s1 : List Char) (ss : List (List Char)) : List Char :=
  pyMaxBy (fun a b => decide (valorRomano (String.mk a) < valorRomano (String.mk b))) s1 ss

/-- Embeds `_normalizar_periodo`: `none` models the `None` result (also for non-string
or empty input). -/
def normalizarPeriodo : Option String → Option String
  | none => none
  | some p =>
    if p = "" then none
    else
      let t := limpiarPeriodo p
      match trozosDigitos t with
      | _ :: _ => some (anioASigloRomano (anioMaximo t))
      | [] =>
        match buscarSiglos t with
        | [] => none
        | s1 :: ss => some (String.mk ((mejorSiglo s1 ss).map upperChar))

/-!
## Publisher normalizer (`_normalizar_editorial`)
-/

/-- Python `str.capitalize()`: first character uppercased, the rest lowercased. -/
def capitalizarPalabra : List Char → List Char
  | [] => []
  | c :: cs => upperChar c :: cs.map lowerChar

/-- Python `str.isupper()`: at least one cased character and no cased character
lowercase. -/
def esMayusculas (w : List Char) : Bool :=
  (w.any isLetterT) && (w.all fun c => !isLetterT c || esMayusChar c)

/-- The word-normalization lambda of `_normalizar_editorial`:
`" ".join(w if w.isupper() else w.capitalize() for w in x.split())`. -/
def normalizarPalabrasEditorial (l : List Char) : List Char :=
  List.intercalate [' ']
    ((runsAux (fun c => !isPyWs c) [] l).map fun w => if esMayusculas w then w else capitalizarPalabra w)

/-- Embeds `_normalizar_editorial`. -/
def normalizarEditorial : Option String → String × String
  | none => ("Editorial no identificada", "")
  | some e0 =>
    if e0 = "" ∨ e0 = "##" then ("Editorial no identificada", "")
    else
      let e := pyStripStr e0
      let e := String.mk (quitarParentesisWs e.toList)
      let e := pyReplace e ",;" ";"
      let e := pyReplace e "," ";"
      let partes := ((splitChar ';' e.toList).map pyStrip).filter fun p => p ≠ []
      let norm := partes.map fun p => normalizarPalabrasEditorial (pyStripSet p ['.'])
      match norm with
      | [] => ("Editorial no identificada", "")
      | [e1] => (String.mk e1, "")
      | e1 :: e2 :: _ => (String.mk e1, String.mk e2)

/-!
## Thesaurus matching (`modelamiento_topicos.py` and `src/modelamiento_topicos.py`)

The sentence-embedding model enters only through the cosine-similarity scores;
it is abstracted as a function `sim : String → String → ℚ` giving the cosine
similarity between the embedding of a (normalized) phrase and the embedding of
a candidate label.  Both variants of the code share `normalizar_texto` and this
abstraction, so a claim quantifying over "every fixed embedding function"
quantifies over `sim`.
-/

/-- Embeds `extraer_vocabulario.Termino`. -/
structure Termino where
  notacion : String
  etiqueta : String
  uri : String
  nivel : Nat
  hijos : List Termino

def terminoVacio : Termino := ⟨"", "", "", 0, []⟩

/-- Embeds `re.sub(r"\([^)]*\)", "", l)` (no whitespace before the group, as in
`normalizar_texto`). -/
def quitarParentesisAux : Nat → List Char → List Char
  | _, [] => []
  | 0, l => l
  | fuel + 1, c :: cs =>
    if c = '(' then
      match cs.dropWhile (fun d => d ≠ ')') with
      | ')' :: rest => quitarParentesisAux fuel rest
      | _ => c :: quitarParentesisAux fuel cs
    else c :: quitarParentesisAux fuel cs

/-- NFD decomposition followed by removal of combining marks, for the modelled
accented letters (`normalizar_texto`, first step). -/
def quitarAcentoChar (c : Char) : Char :=
  match (acentosMin.find? fun p => p.1 = c) with
  | some p => p.2
  | none =>
    match (acentosMay.find? fun p => p.1 = c) with
    | some p => p.2
    | none => c

/-- Embeds `ProcesadorMateriasEmbeddings.normalizar_texto`. -/
def normalizarTexto (texto : String) : String :=
  let l := texto.toList.map quitarAcentoChar
  let l := l.map lowerChar
  let l := pyStrip l
  let l := quitarParentesisAux l.length l
  let l := replaceFuel "en la literatura".toList [] l.length l
  String.mk (pyStrip l)

/-- Embeds `extraer_terminos_nivel_2`: the children of the root terms, in order. -/
def extraerTerminosNivel2 (tesauro : List Termino) : List Termino :=
  tesauro.flatMap fun raiz => raiz.hijos

/-- Embeds `extraer_terminos_nivel_3` (batched variant): the grandchildren of the
root terms, in order. -/
def extraerTerminosNivel3 (tesauro : List Termino) : List Termino :=
  tesauro.flatMap fun raiz => raiz.hijos.flatMap fun n2 => n2.hijos

/-- The similarity row `cosine_similarity([termino_embedding], tesauro_embeddings)[0]`:
the phrase is normalized, the candidate labels are used as stored. -/
def similitudes (sim : String → String → ℚ) (cands : List Termino) (termino : String) : List ℚ :=
  cands.map fun c => sim (normalizarTexto termino) c.etiqueta

/-- Embeds `np.argmax`: index of the first occurrence of the maximum. -/
def argmaxIdx (l : List ℚ) : Nat :=
  match enumFromL 0 l with
  | [] => 0
  | e :: es => (pyMaxBy (fun a b => decide (a.2 < b.2)) e es).1

/-- Embeds `encontrar_termino_similar`: the argmax candidate with its score when the
maximum similarity reaches the threshold, otherwise a synthetic `Termino`
carrying the original phrase with the maximum similarity. -/
def encontrarTerminoSimilar (sim : String → String → ℚ) (cands : List Termino)
    (termino : String) (umbral : ℚ) : Termino × ℚ :=
  let sims := similitudes sim cands termino
  let i := argmaxIdx sims
  let m := sims.getD i 0
  if umbral ≤ m then (cands.getD i terminoVacio, m)
  else ({ notacion := "", etiqueta := termino, uri := "", nivel := 0, hijos := [] }, m)

/-- Embeds `separar_materias`: split on `;` and strip each piece. -/
def separarMaterias (texto : String) : List String :=
  (splitChar ';' texto.toList).map fun l => pyStripStr (String.mk l)

/-- One entry of the `resultados` list of `procesar_linea`. -/
structure Resultado where
  terminoOriginal : String
  terminoSugerido : Termino
  score : ℚ

def resultadosDe (sim : String → String → ℚ) (cands : List Termino)
    (umbral : ℚ) (linea : String) : List Resultado :=
  (separarMaterias linea).map fun m =>
    let r := encontrarTerminoSimilar sim cands m umbral
    ⟨m, r.1, r.2⟩

/-- Embeds `procesar_linea`: the result of maximal score, ties resolved in favour of
the earliest phrase (`max(resultados, key=...)`).  The split always yields at
least one phrase, so the default branch is unreachable. -/
def procesarLinea (sim : String → String → ℚ) (cands : List Termino)
    (umbral : ℚ) (linea : String) : Resultado :=
  match resultadosDe sim cands umbral linea with
  | [] => ⟨"", terminoVacio, 0⟩
  | r :: rs => pyMaxBy (fun a b => decide (a.score < b.score)) r rs

/-- The default threshold `umbral = 0.3` of `procesar_linea`, written as the
reduced rational 3/10 (a constructor literal so that concrete runs evaluate
inside the kernel); `umbralTemaGeneral_eq` checks it equals `3/10`. -/
def umbralTemaGeneral : ℚ := ⟨3, 10, by decide, by decide⟩

theorem umbralTemaGeneral_eq : umbralTemaGeneral = 3/10 := by
  have h : umbralTemaGeneral * 10 = 3 := by
    apply Rat.ext
    · norm_num [umbralTemaGeneral, Rat.mul_def, Rat.normalize]
      decide
    · norm_num [umbralTemaGeneral, Rat.mul_def, Rat.normalize]
  linarith

/-- Embeds `procesar_dataframe` (per-row variant of `src/modelamiento_topicos.py`):
the subject column is mapped row by row; a null subject yields a null
`tema_general`, otherwise the label of the best suggestion of `procesar_linea`
with its default threshold `0.3`. -/
def procesarDataframe (sim : String → String → ℚ) (cands : List Termino)
    (rows : List (Option String)) : List (Option String) :=
  rows.map (Option.map fun s =>
    (procesarLinea sim cands umbralTemaGeneral s).terminoSugerido.etiqueta)

/-- The label the batched variant assigns to one non-null subject: the label of
the argmax candidate of the similarity row (no threshold, no split on `;`). -/
def mejorEtiquetaBatch (sim : String → String → ℚ) (cands : List Termino) (s : String) : String :=
  (cands.getD (argmaxIdx (similitudes sim cands s)) terminoVacio).etiqueta

/-- Embeds `procesar_dataframe` (batched variant of `src/src/modelamiento_topicos.py`):
the non-null subjects are collected with their original row indices, one
similarity matrix is computed, the per-row argmax labels are written back
aligned by original row index, and the other rows keep a null `tema_general`. -/
def procesarDataframeBatch (sim : String → String → ℚ) (cands : List Termino)
    (rows : List (Option String)) : List (Option String) :=
  let validos := (enumFromL 0 rows).filterMap fun p => p.2.map fun s => (p.1, s)
  let etiquetas := validos.map fun p => (p.1, mejorEtiquetaBatch sim cands p.2)
  (enumFromL 0 rows).map fun p => etiquetas.lookup p.1

/-!
## Claims about the row partition (C1, C10)
-/

/-- C1 (amended): for every loaded table the partition returned by
`filtrar_registros_con_biblioteca` is complete and disjoint — the lengths of
the two parts add up to the number of input rows and every row appears, with
multiplicity, in exactly one part — and, whenever at least one configured
library-holding column is present in the table, a row is valid if and only if
it is an input row with a non-null value in at least one of those columns. -/
theorem particion_filtrar_registros (df : DataFrame) :
    (filtrarRegistrosConBiblioteca df).1.length
        + (filtrarRegistrosConBiblioteca df).2.length = df.rows.length ∧
    (∀ r : Fila, (filtrarRegistrosConBiblioteca df).1.count r
        + (filtrarRegistrosConBiblioteca df).2.count r = df.rows.count r) ∧
    (columnasBibliotecaDisponibles df ≠ [] → ∀ r : Fila,
      (r ∈ (filtrarRegistrosConBiblioteca df).1 ↔
        r ∈ df.rows ∧ tieneBiblioteca (columnasBibliotecaDisponibles df) r = true)) := by
  by_cases h : columnasBibliotecaDisponibles df = []
  · refine ⟨?_, ?_, ?_⟩ <;> simp [filtrarRegistrosConBiblioteca, h]
  · refine ⟨?_, fun r => ?_, fun _ r => ?_⟩
    · simpa [filtrarRegistrosConBiblioteca, h] using
        length_filter_add_length_filter_not (tieneBiblioteca (columnasBibliotecaDisponibles df)) df.rows
    · simpa [filtrarRegistrosConBiblioteca, h] using
        count_filter_add_count_filter_not (tieneBiblioteca (columnasBibliotecaDisponibles df)) df.rows r
    · simp [filtrarRegistrosConBiblioteca, h, List.mem_filter]

/-- Witness for `particion_filtrar_registros` at a concrete two-row table with
a present library column. -/
def dfConBiblioteca : DataFrame :=
  ⟨["Biblioteca_1"], [[("Biblioteca_1", some "x")], [("Biblioteca_1", none)]]⟩

theorem particion_filtrar_registros_witness :
    [("Biblioteca_1", some "x")] ∈ (filtrarRegistrosConBiblioteca dfConBiblioteca).1 :=
  ((particion_filtrar_registros dfConBiblioteca).2.2 (by decide)
    [("Biblioteca_1", some "x")]).2 ⟨by decide, by decide⟩

/-- C1 counterexample: on a table with no library-holding column the source
returns every row as valid, so a row can be valid although no configured
library column present in the table holds a non-null value in it; the claimed
"valid iff at least one non-null library value" equivalence fails there. -/
def dfSinBibliotecas : DataFrame := ⟨["X"], [[("X", some "v")]]⟩

def filaX : Fila := [("X", some "v")]

theorem particion_filtrar_contraejemplo :
    filaX ∈ (filtrarRegistrosConBiblioteca dfSinBibliotecas).1 ∧
    tieneBiblioteca (columnasBibliotecaDisponibles dfSinBibliotecas) filaX = false := by
  decide

/-- C10: when none of the configured library-holding columns is present in the
loaded table, `filtrar_registros_con_biblioteca` returns the whole table as the
valid partition and an empty discarded partition. -/
theorem filtrar_sin_columnas_valida_todo (df : DataFrame)
    (h : columnasBibliotecaDisponibles df = []) :
    filtrarRegistrosConBiblioteca df = (df.rows, []) := by
  simp [filtrarRegistrosConBiblioteca, h]

theorem filtrar_sin_columnas_valida_todo_witness :
    filtrarRegistrosConBiblioteca dfSinBibliotecas = (dfSinBibliotecas.rows, []) :=
  filtrar_sin_columnas_valida_todo dfSinBibliotecas (by decide)

/-!
## Claim C2: the matcher
-/

theorem enumFromL_map_snd (n : Nat) (l : List α) : (enumFromL n l).map Prod.snd = l := by
  induction l generalizing n with
  | nil => rfl
  | cons x xs ih => simp [enumFromL, ih]

theorem enumFromL_mem (d : α) :
    ∀ {l : List α} {n : Nat} {p : Nat × α}, p ∈ enumFromL n l →
      n ≤ p.1 ∧ p.1 - n < l.length ∧ l.getD (p.1 - n) d = p.2 := by
  intro l
  induction l with
  | nil => intro n p hp; simp [enumFromL] at hp
  | cons x xs ih =>
    intro n p hp
    rcases List.mem_cons.1 hp with rfl | hp'
    · simp
    · obtain ⟨h1, h2, h3⟩ := ih hp'
      refine ⟨by omega, by simp; omega, ?_⟩
      have hk : p.1 - n = (p.1 - (n + 1)) + 1 := by omega
      rw [hk]
      simpa using h3

theorem argmaxIdx_spec (l : List ℚ) (h : l ≠ []) :
    argmaxIdx l < l.length ∧ ∀ v ∈ l, v ≤ l.getD (argmaxIdx l) 0 := by
  match l, h with
  | q :: qs, _ =>
    have hidx : argmaxIdx (q :: qs)
        = (pyMaxBy (fun a b : Nat × ℚ => decide (a.2 < b.2)) (0, q) (enumFromL 1 qs)).1 := by
      simp [argmaxIdx, enumFromL]
    have hmem : pyMaxBy (fun a b : Nat × ℚ => decide (a.2 < b.2)) (0, q) (enumFromL 1 qs)
        ∈ enumFromL 0 (q :: qs) := by
      simpa [enumFromL] using
        pyMaxBy_mem (fun a b : Nat × ℚ => decide (a.2 < b.2)) (0, q) (enumFromL 1 qs)
    obtain ⟨-, hlt, hget⟩ := enumFromL_mem (0 : ℚ) hmem
    simp only [Nat.sub_zero] at hlt hget
    constructor
    · rw [hidx]; exact hlt
    · intro v hv
      obtain ⟨p, hp, hpv⟩ := List.mem_map.1 (by rw [enumFromL_map_snd 0 (q :: qs)]; exact hv :
        v ∈ (enumFromL 0 (q :: qs)).map Prod.snd)
      have hle := pyMaxBy_le (Prod.snd) (0, q) (enumFromL 1 qs) p (by simpa [enumFromL] using hp)
      rw [hidx, hget]
      exact hpv ▸ hle

/-- C2: `encontrar_termino_similar` never raises — its result score is the
maximum cosine similarity over the candidate labels; when the threshold is
reached the returned term is the argmax candidate paired with that maximum,
and otherwise the returned term is the synthetic placeholder whose label is
the original (pre-normalization) phrase with empty notacion/uri and level 0,
still paired with the maximum similarity. -/
theorem encontrar_termino_similar_spec (sim : String → String → ℚ) (cands : List Termino)
    (termino : String) (umbral : ℚ) (h : cands ≠ []) :
    ((encontrarTerminoSimilar sim cands termino umbral).2
        = (similitudes sim cands termino).getD (argmaxIdx (similitudes sim cands termino)) 0) ∧
    (∀ q ∈ similitudes sim cands termino,
        q ≤ (encontrarTerminoSimilar sim cands termino umbral).2) ∧
    (umbral ≤ (encontrarTerminoSimilar sim cands termino umbral).2 →
      argmaxIdx (similitudes sim cands termino) < cands.length ∧
      (encontrarTerminoSimilar sim cands termino umbral).1
        = cands.getD (argmaxIdx (similitudes sim cands termino)) terminoVacio) ∧
    ((encontrarTerminoSimilar sim cands termino umbral).2 < umbral →
      (encontrarTerminoSimilar sim cands termino umbral).1
        = { notacion := "", etiqueta := termino, uri := "", nivel := 0, hijos := [] }) := by
  have hsims : similitudes sim cands termino ≠ [] := by
    simp only [similitudes, ne_eq, List.map_eq_nil_iff]
    exact h
  obtain ⟨hlt, hmax⟩ := argmaxIdx_spec _ hsims
  have hsnd : (encontrarTerminoSimilar sim cands termino umbral).2
      = (similitudes sim cands termino).getD (argmaxIdx (similitudes sim cands termino)) 0 := by
    simp only [encontrarTerminoSimilar]
    split <;> rfl
  refine ⟨hsnd, fun q hq => hsnd ▸ hmax q hq, fun hu => ?_, fun hu => ?_⟩
  · rw [hsnd] at hu
    constructor
    · have hlen : (similitudes sim cands termino).length = cands.length := by
        simp [similitudes]
      omega
    · simp only [encontrarTerminoSimilar]
      rw [if_pos hu]
  · rw [hsnd] at hu
    simp only [encontrarTerminoSimilar]
    rw [if_neg (not_le_of_lt hu)]

/-- A concrete embedding-similarity function: every pair of texts has cosine
similarity 0. -/
def simCero : String → String → ℚ := fun _ _ => 0

theorem encontrar_termino_similar_spec_witness :
    (encontrarTerminoSimilar simCero [terminoVacio] "x" 0).1
      = [terminoVacio].getD (argmaxIdx (similitudes simCero [terminoVacio] "x")) terminoVacio :=
  ((encontrar_termino_similar_spec simCero [terminoVacio] "x" 0 (by simp)).2.2.1 (by decide)).2

/-!
## Claim C4: the date normalizer returns the maximum year
-/

theorem digit_toNat_bounds (c : Char) (h : c.isDigit = true) :
    48 ≤ c.toNat ∧ c.toNat ≤ 57 := by
  simpa [Char.isDigit] using h

theorem natVal_lt_pow (l : List Char) (h : l.all Char.isDigit = true) :
    natVal l < 10 ^ l.length := by
  induction l with
  | nil => simp [natVal]
  | cons c cs ih =>
    simp only [List.all_cons, Bool.and_eq_true] at h
    obtain ⟨hd, hcs⟩ := h
    have hb := digit_toNat_bounds c hd
    have hrec := ih hcs
    simp only [natVal, List.length_cons, pow_succ]
    have h9 : c.toNat - 48 ≤ 9 := by omega
    calc (c.toNat - 48) * 10 ^ cs.length + natVal cs
        < (c.toNat - 48) * 10 ^ cs.length + 10 ^ cs.length := by omega
      _ = (c.toNat - 48 + 1) * 10 ^ cs.length := by ring
      _ ≤ 10 * 10 ^ cs.length := Nat.mul_le_mul_right _ (by omega)
      _ = 10 ^ cs.length * 10 := by ring

/-- On equal-length digit strings, the Python lexicographic string order agrees
with the numeric order. -/
theorem charListLt_iff_natVal :
    ∀ (a b : List Char), a.all Char.isDigit = true → b.all Char.isDigit = true →
      a.length = b.length → (charListLt a b = true ↔ natVal a < natVal b)
  | [], [], _, _, _ => by simp [charListLt, natVal]
  | [], _ :: _, _, _, hlen => by simp at hlen
  | _ :: _, [], _, _, hlen => by simp at hlen
  | c :: as, d :: bs, ha, hb, hlen => by
    simp only [List.all_cons, Bool.and_eq_true] at ha hb
    obtain ⟨hc, has⟩ := ha
    obtain ⟨hd, hbs⟩ := hb
    have hlen' : as.length = bs.length := by simpa using hlen
    have hbc := digit_toNat_bounds c hc
    have hbd := digit_toNat_bounds d hd
    have hA := natVal_lt_pow as has
    have hB := natVal_lt_pow bs hbs
    simp only [charListLt, natVal, hlen']
    by_cases h1 : c < d
    · rw [if_pos h1]
      simp only [true_iff]
      have hcd : c.toNat < d.toNat := h1
      calc (c.toNat - 48) * 10 ^ bs.length + natVal as
          < (c.toNat - 48) * 10 ^ bs.length + 10 ^ bs.length := by
            rw [hlen'] at hA; omega
        _ = (c.toNat - 48 + 1) * 10 ^ bs.length := by ring
        _ ≤ (d.toNat - 48) * 10 ^ bs.length := Nat.mul_le_mul_right _ (by omega)
        _ ≤ (d.toNat - 48) * 10 ^ bs.length + natVal bs := Nat.le_add_right _ _
    · rw [if_neg h1]
      by_cases h2 : d < c
      · rw [if_pos h2]
        simp only [Bool.false_eq_true, false_iff, not_lt]
        have hdc : d.toNat < c.toNat := h2
        refine le_of_lt ?_
        calc (d.toNat - 48) * 10 ^ bs.length + natVal bs
            < (d.toNat - 48) * 10 ^ bs.length + 10 ^ bs.length := by omega
          _ = (d.toNat - 48 + 1) * 10 ^ bs.length := by ring
          _ ≤ (c.toNat - 48) * 10 ^ bs.length := Nat.mul_le_mul_right _ (by omega)
          _ ≤ (c.toNat - 48) * 10 ^ bs.length + natVal as := Nat.le_add_right _ _
      · rw [if_neg h2]
        have hcd : c = d := le_antisymm (le_of_not_lt h2) (le_of_not_lt h1)
        subst hcd
        rw [charListLt_iff_natVal as bs has hbs hlen']
        omega

theorem yearTokens_prop {l : List Char} {t : List Char} (h : t ∈ yearTokens l) :
    t.length = 4 ∧ t.all Char.isDigit = true := by
  have := List.mem_filter.1 h
  simpa using this.2

/-- C4: for every non-null date value, `_normalizar_fecha_publicacion` returns
the null marker exactly when the cleaned string has no four-digit year token,
and otherwise returns a year token that is maximal both under Python string
comparison and numerically (the two maxima coincide on fixed-width digit
strings). -/
theorem fecha_maximo_anio (s : String) :
    (normalizarFechaPublicacion (some s) = none ↔ yearTokens (limpiarFecha s) = []) ∧
    ∀ y, normalizarFechaPublicacion (some s) = some y →
      y.toList ∈ yearTokens (limpiarFecha s) ∧
      ∀ t ∈ yearTokens (limpiarFecha s),
        charListLt y.toList t = false ∧ natVal t ≤ natVal y.toList := by
  cases htok : yearTokens (limpiarFecha s) with
  | nil =>
    refine ⟨by simp [normalizarFechaPublicacion, normalizarFechaStr, htok], ?_⟩
    intro y hy
    simp [normalizarFechaPublicacion, normalizarFechaStr, htok] at hy
  | cons t ts =>
    have hall : ∀ u ∈ t :: ts, u.length = 4 ∧ u.all Char.isDigit = true := by
      intro u hu
      exact yearTokens_prop (htok ▸ hu)
    have hcongr : pyMaxBy charListLt t ts
        = pyMaxBy (fun a b => decide (natVal a < natVal b)) t ts := by
      apply pyMaxBy_congr
      intro a ha b hb
      have ha' := hall a ha
      have hb' := hall b hb
      exact Bool.eq_iff_iff.2 (by
        rw [charListLt_iff_natVal a b ha'.2 hb'.2 (ha'.1.trans hb'.1.symm)]
        simp)
    refine ⟨by simp [normalizarFechaPublicacion, normalizarFechaStr, htok], ?_⟩
    intro y hy
    have hy' : y = String.mk (pyMaxBy charListLt t ts) := by
      simp only [normalizarFechaPublicacion, normalizarFechaStr, htok,
        Option.some.injEq] at hy
      exact hy.symm
    have hmax := pyMaxBy_mem charListLt t ts
    constructor
    · rw [hy']
      exact hmax
    · intro u hu
      have hu' : u ∈ t :: ts := hu
      have hle : natVal u ≤ natVal (pyMaxBy (fun a b => decide (natVal a < natVal b)) t ts) :=
        pyMaxBy_le natVal t ts u hu'
      rw [← hcongr] at hle
      have hb4 := hall _ hmax
      have hu4 := hall u hu'
      rw [hy']
      refine ⟨?_, hle⟩
      have hiff := charListLt_iff_natVal (pyMaxBy charListLt t ts) u hb4.2 hu4.2
        (hb4.1.trans hu4.1.symm)
      have : ¬ natVal (pyMaxBy charListLt t ts) < natVal u := not_lt_of_le hle
      simp only [String.toList]
      rw [← Bool.not_eq_true]
      rw [hiff]
      exact this

theorem fecha_maximo_anio_witness :
    ("2020").toList ∈ yearTokens (limpiarFecha "2019-2020") ∧
    natVal ("2019").toList ≤ natVal ("2020").toList :=
  ⟨((fecha_maximo_anio "2019-2020").2 "2020" (by decide)).1,
   (((fecha_maximo_anio "2019-2020").2 "2020" (by decide)).2 ("2019").toList (by decide)).2⟩

/-!
## Claim C5: the Dewey normalizer
-/

theorem racha_digitos {l num : List Char} (h : primeraRachaDigitos l = some num) :
    num ≠ [] ∧ num.all Char.isDigit = true := by
  induction l with
  | nil => simp [primeraRachaDigitos] at h
  | cons c cs ih =>
    by_cases hc : c.isDigit
    · simp only [primeraRachaDigitos, if_pos hc, Option.some.injEq] at h
      subst h
      refine ⟨by simp, ?_⟩
      simp only [List.all_cons, hc, Bool.true_and]
      exact List.all_eq_true.2 fun x hx => List.mem_takeWhile_imp hx
    · simp only [primeraRachaDigitos, if_neg hc] at h
      exact ih h

/-- C5 (amended): `_normalizar_numero_clasificacion_dewey` returns `""` for the
empty input and for every input whose cleaned form contains no digit — in
particular an input starting with `R` but containing no digit yields `""`, not
`"R"`; when a digit run exists, an original that (trimmed) starts with `R`
yields `"R"`, a first digit run shorter than three digits or starting with `0`
yields `"0"`, and otherwise the result is the hundreds-class bucket: the first
digit followed by `"00"`, numerically `(first three digits) / 100 * 100`. -/
theorem dewey_centena (raw : String) :
    (raw = "" → normalizarNumeroClasificacionDewey raw = "") ∧
    (primeraRachaDigitos (limpiarDewey raw) = none →
      normalizarNumeroClasificacionDewey raw = "") ∧
    (∀ num, raw ≠ "" → primeraRachaDigitos (limpiarDewey raw) = some num →
      (pyStartsWith (pyStripStr raw) "R" = true →
        normalizarNumeroClasificacionDewey raw = "R") ∧
      (pyStartsWith (pyStripStr raw) "R" = false →
        ((num.length < 3 ∨ num.headD 'x' = '0') →
          normalizarNumeroClasificacionDewey raw = "0") ∧
        (3 ≤ num.length → num.headD 'x' ≠ '0' →
          normalizarNumeroClasificacionDewey raw = String.mk [num.headD 'x', '0', '0'] ∧
          natVal (num.take 3) / 100 * 100
            = natVal (normalizarNumeroClasificacionDewey raw).toList))) := by
  refine ⟨fun h => by simp [normalizarNumeroClasificacionDewey, h], ?_, ?_⟩
  · intro h
    by_cases hr : raw = ""
    · simp [normalizarNumeroClasificacionDewey, hr]
    · simp [normalizarNumeroClasificacionDewey, hr, h]
  · intro num hraw hnum
    obtain ⟨hne, hdig⟩ := racha_digitos hnum
    constructor
    · intro hR
      simp [normalizarNumeroClasificacionDewey, hraw, hnum, hR]
    · intro hR
      have hred : normalizarNumeroClasificacionDewey raw
          = if num.length < 3 ∨ num.headD 'x' = '0' then "0"
            else String.mk [num.headD 'x', '0', '0'] := by
        simp [normalizarNumeroClasificacionDewey, hraw, hnum, hR]
      constructor
      · intro hsmall
        rw [hred, if_pos hsmall]
      · intro hlen hhead
        have hcond : ¬ (num.length < 3 ∨ num.headD 'x' = '0') := by
          push_neg
          exact ⟨by omega, hhead⟩
        have hres : normalizarNumeroClasificacionDewey raw
            = String.mk [num.headD 'x', '0', '0'] := by
          rw [hred, if_neg hcond]
        refine ⟨hres, ?_⟩
        rcases num with _ | ⟨d, _ | ⟨e, _ | ⟨f, rest⟩⟩⟩
        · exact absurd rfl hne
        · simp at hlen
        · simp at hlen
        · simp only [List.all_cons, Bool.and_eq_true] at hdig
          have hbd := digit_toNat_bounds d hdig.1
          have hbe := digit_toNat_bounds e hdig.2.1
          have hbf := digit_toNat_bounds f hdig.2.2.1
          rw [hres]
          have h0 : ('0').toNat = 48 := rfl
          simp only [List.take, List.headD, natVal, String.toList, List.length_cons,
            List.length_nil, List.length]
          norm_num
          omega

theorem dewey_centena_witness :
    normalizarNumeroClasificacionDewey "709" = String.mk ['7', '0', '0'] :=
  (((dewey_centena "709").2.2 ['7', '0', '9'] (by decide) (by decide)).2
    (by decide)).2 (by decide) (by decide) |>.1

/-- C5 counterexample: the input `"R"` (trimmed) starts with `R`, yet the
normalizer returns `""` and not `"R"` — the claimed unconditional `R` rule
fails because the digit-run search runs first and returns `""` on failure. -/
theorem dewey_contraejemplo :
    pyStartsWith (pyStripStr "R") "R" = true ∧
    normalizarNumeroClasificacionDewey "R" ≠ "R" ∧
    normalizarNumeroClasificacionDewey "R" = "" := by
  refine ⟨by decide, by decide, by decide⟩

/-!
## Claim C7: the period normalizer
-/

/-- Roundtrip of the two Roman-numeral conversions of the source: for every century
value the greedy writer and the subtractive reader are mutually inverse. -/
theorem valorRomano_ciclo :
    ∀ c : Nat, c < 101 → valorRomano (cicloRomano tablaRomana (c : Int)) = (c : Int) := by
  decide

theorem sigloDeAnio_eq (mx : Nat) :
    sigloDeAnio mx = ((if mx = 0 then 0 else (mx - 1) / 100 + 1 : Nat) : Int) := by
  unfold sigloDeAnio
  rcases Nat.eq_zero_or_pos mx with rfl | hpos
  · decide
  · rw [if_neg (by omega)]
    have h1 : (mx : Int) - 1 = ((mx - 1 : Nat) : Int) := by omega
    have h2 : (((mx - 1) : Nat) : Int) / 100 = (((mx - 1) / 100 : Nat) : Int) := by
      exact_mod_cast (Int.ofNat_ediv (mx - 1) 100).symm
    rw [h1, Int.fdiv_eq_ediv _ (by norm_num), h2]
    push_cast
    ring

theorem trozos_prop :
    ∀ (l : List Char), ∀ r ∈ trozosDigitos l, r.length = 4 ∧ r.all Char.isDigit = true := by
  have key : ∀ n (l : List Char), l.length ≤ n →
      ∀ r ∈ trozosDigitos l, r.length = 4 ∧ r.all Char.isDigit = true := by
    intro n
    induction n with
    | zero =>
      intro l hl r hr
      rcases l with _ | ⟨c, cs⟩
      · simp [trozosDigitos] at hr
      · simp at hl
    | succ n ih =>
      intro l hl r hr
      rcases l with _ | ⟨c1, _ | ⟨c2, _ | ⟨c3, _ | ⟨c4, rest⟩⟩⟩⟩
      · simp [trozosDigitos] at hr
      · simp [trozosDigitos] at hr
      · simp [trozosDigitos] at hr
      · simp [trozosDigitos] at hr
      · by_cases hd : (c1.isDigit && c2.isDigit && c3.isDigit && c4.isDigit) = true
        · rw [show trozosDigitos (c1 :: c2 :: c3 :: c4 :: rest)
              = [c1, c2, c3, c4] :: trozosDigitos rest by
            simp [trozosDigitos, hd]] at hr
          rcases List.mem_cons.1 hr with rfl | hr'
          · simp only [Bool.and_eq_true] at hd
            refine ⟨rfl, ?_⟩
            simp [hd.1.1.1, hd.1.1.2, hd.1.2, hd.2]
          · exact ih rest (by simp at hl; omega) r hr'
        · rw [show trozosDigitos (c1 :: c2 :: c3 :: c4 :: rest)
              = trozosDigitos (c2 :: c3 :: c4 :: rest) by
            simp [trozosDigitos, hd]] at hr
          exact ih (c2 :: c3 :: c4 :: rest) (by simp at hl ⊢; omega) r hr
  exact fun l => key l.length l le_rfl

/-- C7: `_normalizar_periodo` yields null on null, non-string or empty input;
when the cleaned lower-cased text contains a four-digit year the result is the
Roman numeral of the century `floor((year - 1)/100) + 1` of the maximum year
found; otherwise, when `siglo(s)`- or hyphen-introduced Roman century mentions
exist, the result is the numerically largest one uppercased; otherwise null. -/
theorem periodo_siglo_romano :
    normalizarPeriodo none = none ∧
    normalizarPeriodo (some "") = none ∧
    ∀ s : String, s ≠ "" →
      (trozosDigitos (limpiarPeriodo s) ≠ [] →
        normalizarPeriodo (some s) = some (anioASigloRomano (anioMaximo (limpiarPeriodo s))) ∧
        valorRomano (anioASigloRomano (anioMaximo (limpiarPeriodo s)))
          = sigloDeAnio (anioMaximo (limpiarPeriodo s)) ∧
        anioMaximo (limpiarPeriodo s) ∈ (trozosDigitos (limpiarPeriodo s)).map natVal ∧
        ∀ a ∈ (trozosDigitos (limpiarPeriodo s)).map natVal,
          a ≤ anioMaximo (limpiarPeriodo s)) ∧
      (trozosDigitos (limpiarPeriodo s) = [] →
        ∀ b bs, buscarSiglos (limpiarPeriodo s) = b :: bs →
          normalizarPeriodo (some s) = some (String.mk ((mejorSiglo b bs).map upperChar)) ∧
          mejorSiglo b bs ∈ b :: bs ∧
          ∀ x ∈ b :: bs,
            valorRomano (String.mk x) ≤ valorRomano (String.mk (mejorSiglo b bs))) ∧
      (trozosDigitos (limpiarPeriodo s) = [] → buscarSiglos (limpiarPeriodo s) = [] →
        normalizarPeriodo (some s) = none) := by
  refine ⟨rfl, rfl, fun s hs => ⟨?_, ?_, ?_⟩⟩
  · intro htroz
    rcases hcase : trozosDigitos (limpiarPeriodo s) with _ | ⟨a, as⟩
    · exact absurd hcase htroz
    have heq : anioMaximo (limpiarPeriodo s)
        = pyMaxBy (fun a b => decide (a < b)) (natVal a) (as.map natVal) := by
      simp [anioMaximo, hcase]
    have hmem0 : anioMaximo (limpiarPeriodo s) ∈ (a :: as).map natVal := by
      rw [heq]
      simpa using pyMaxBy_mem (fun a b => decide (a < b)) (natVal a) (as.map natVal)
    refine ⟨by simp [normalizarPeriodo, hs, hcase], ?_, hmem0, ?_⟩
    · -- the resulting numeral evaluates back to the century of the maximum year
      obtain ⟨r, hr, hrv⟩ := List.mem_map.1 hmem0
      have h4 := (trozos_prop (limpiarPeriodo s)) r (hcase ▸ hr)
      have hlt : natVal r < 10 ^ r.length := natVal_lt_pow r h4.2
      rw [h4.1] at hlt
      have hmx : anioMaximo (limpiarPeriodo s) < 10000 := by
        rw [← hrv]
        exact lt_of_lt_of_le hlt (by norm_num)
      set mx := anioMaximo (limpiarPeriodo s) with hmxdef
      have hc : (if mx = 0 then 0 else (mx - 1) / 100 + 1) < 101 := by
        split <;> omega
      unfold anioASigloRomano
      rw [sigloDeAnio_eq mx]
      exact valorRomano_ciclo _ hc
    · intro v hv
      rw [heq]
      exact pyMaxBy_le (fun x : Nat => x) (natVal a) (as.map natVal) v (by simpa using hv)
  · intro htroz b bs hsig
    have hres : normalizarPeriodo (some s)
        = some (String.mk ((mejorSiglo b bs).map upperChar)) := by
      simp [normalizarPeriodo, hs, htroz, hsig, mejorSiglo]
    refine ⟨hres, ?_, ?_⟩
    · exact pyMaxBy_mem _ b bs
    · intro x hx
      exact pyMaxBy_le (fun l => valorRomano (String.mk l)) b bs x hx
  · intro htroz hsig
    simp [normalizarPeriodo, hs, htroz, hsig]

theorem periodo_siglo_romano_witness :
    normalizarPeriodo (some "2013")
      = some (anioASigloRomano (anioMaximo (limpiarPeriodo "2013"))) :=
  ((periodo_siglo_romano.2.2 "2013" (by decide)).1 (by decide)).1

/-!
## Claim C8: subject-field processing
-/

theorem splitChar_ne_nil (sep : Char) (l : List Char) : splitChar sep l ≠ [] := by
  cases l with
  | nil => simp [splitChar]
  | cons c cs =>
    by_cases h : c = sep
    · simp [splitChar, h]
    · simp only [splitChar, if_neg h]
      rcases hs : splitChar sep cs with _ | ⟨hd, tl⟩ <;> simp

theorem resultadosDe_ne_nil (sim : String → String → ℚ) (cands : List Termino)
    (umbral : ℚ) (linea : String) : resultadosDe sim cands umbral linea ≠ [] := by
  simp only [resultadosDe, separarMaterias, ne_eq, List.map_eq_nil_iff]
  exact splitChar_ne_nil ';' linea.toList

/-- C8: `procesar_linea` splits the subject value on `;` into stripped phrases,
matches each, and returns exactly the result of highest score, ties broken in
favour of the earliest phrase (the returned result is the first one whose score
reaches the maximum); in `procesar_dataframe` a row with a null subject value
is skipped and its general-topic value is null. -/
theorem procesar_linea_mejor_resultado (sim : String → String → ℚ) (cands : List Termino)
    (umbral : ℚ) (linea : String) :
    (procesarLinea sim cands umbral linea ∈ resultadosDe sim cands umbral linea) ∧
    (∀ v ∈ resultadosDe sim cands umbral linea,
      v.score ≤ (procesarLinea sim cands umbral linea).score) ∧
    ((resultadosDe sim cands umbral linea).find?
        (fun v => decide ((procesarLinea sim cands umbral linea).score ≤ v.score))
      = some (procesarLinea sim cands umbral linea)) ∧
    (∀ rows : List (Option String), ∀ k : Nat, rows.getD k none = none →
      (procesarDataframe sim cands rows).getD k none = none) := by
  rcases hres : resultadosDe sim cands umbral linea with _ | ⟨r, rs⟩
  · exact absurd hres (resultadosDe_ne_nil sim cands umbral linea)
  · have hpl : procesarLinea sim cands umbral linea
        = pyMaxBy (fun a b => decide (a.score < b.score)) r rs := by
      simp [procesarLinea, hres]
    refine ⟨?_, ?_, ?_, ?_⟩
    · rw [hpl]
      exact pyMaxBy_mem _ r rs
    · intro v hv
      rw [hpl]
      exact pyMaxBy_le Resultado.score r rs v hv
    · rw [hpl]
      exact pyMaxBy_find? Resultado.score r rs
    · intro rows k hk
      simp only [procesarDataframe, List.getD_eq_getElem?_getD, List.getElem?_map] at hk ⊢
      rcases hrow : rows[k]? with _ | ⟨v⟩
      · simp [hrow]
      · rw [hrow] at hk
        simp only [Option.getD_some] at hk
        subst hk
        simp

def simUno : String → String → ℚ := fun a _ => if a = "b" then 1 else 0

theorem procesar_linea_mejor_resultado_witness :
    procesarLinea simUno [terminoVacio] (3/10) "a; b"
      ∈ resultadosDe simUno [terminoVacio] (3/10) "a; b" :=
  (procesar_linea_mejor_resultado simUno [terminoVacio] (3/10) "a; b").1

/-!
## Claim C9: the batched enrichment variant
-/

theorem lookup_none_of_keys_gt {β : Type*} (k : Nat) :
    ∀ (l : List (Nat × β)), (∀ p ∈ l, k < p.1) → l.lookup k = none := by
  intro l
  induction l with
  | nil => intro _; rfl
  | cons a t ih =>
    intro h
    have hk : k ≠ a.1 := Nat.ne_of_lt (h a (by simp))
    simp only [List.lookup, show (k == a.1) = false by simpa using hk]
    exact ih fun p hp => h p (by simp [hp])

theorem validos_keys_ge (rows : List (Option String)) (n : Nat) (p : Nat × String)
    (hp : p ∈ (enumFromL n rows).filterMap fun q => q.2.map fun s => (q.1, s)) :
    n ≤ p.1 := by
  obtain ⟨q, hq, hmap⟩ := List.mem_filterMap.1 hp
  have hn := (enumFromL_mem (none : Option String) hq).1
  cases q2 : q.2 with
  | none => rw [q2] at hmap; simp at hmap
  | some s =>
    rw [q2] at hmap
    simp only [Option.map_some', Option.some.injEq] at hmap
    rw [← hmap]
    exact hn

theorem batch_escritura_aux (sim : String → String → ℚ) (cands : List Termino) :
    ∀ (rows : List (Option String)) (n : Nat),
      ((enumFromL n rows).map fun p =>
        (((enumFromL n rows).filterMap fun q => q.2.map fun s => (q.1, s)).map
          fun q => (q.1, mejorEtiquetaBatch sim cands q.2)).lookup p.1)
      = rows.map (Option.map (mejorEtiquetaBatch sim cands)) := by
  intro rows
  induction rows with
  | nil => intro n; rfl
  | cons r? rest ih =>
    intro n
    have hkeys : ∀ q ∈ ((enumFromL (n + 1) rest).filterMap
        fun q => q.2.map fun s => (q.1, s)).map
          (fun q => (q.1, mejorEtiquetaBatch sim cands q.2)), n < q.1 := by
      intro q hq
      obtain ⟨v, hv, rfl⟩ := List.mem_map.1 hq
      exact lt_of_lt_of_le (Nat.lt_succ_self n) (validos_keys_ge rest (n + 1) v hv)
    cases r? with
    | none =>
      simp only [enumFromL, List.filterMap_cons, Option.map_none', List.map_cons]
      congr 1
      · exact lookup_none_of_keys_gt n _ hkeys
      · exact ih (n + 1)
    | some s =>
      simp only [enumFromL, List.filterMap_cons, Option.map_some', List.map_cons]
      congr 1
      · simp [List.lookup]
      · have hpt : ∀ p ∈ enumFromL (n + 1) rest,
            List.lookup p.1 ((n, mejorEtiquetaBatch sim cands s) ::
              ((enumFromL (n + 1) rest).filterMap (fun q => q.2.map fun s => (q.1, s))).map
                (fun q => (q.1, mejorEtiquetaBatch sim cands q.2)))
            = List.lookup p.1
              (((enumFromL (n + 1) rest).filterMap (fun q => q.2.map fun s => (q.1, s))).map
                (fun q => (q.1, mejorEtiquetaBatch sim cands q.2))) := by
          intro p hp
          have h1 : n + 1 <= p.1 := (enumFromL_mem (none : Option String) hp).1
          simp [List.lookup, show (p.1 == n) = false by
            simpa using Nat.ne_of_gt (by omega)]
        exact (List.map_congr_left hpt).trans (ih (n + 1))

/-- C9 (amended): the batched variant of `procesar_dataframe` is equivalent to
the sequential per-row computation of the same per-subject argmax: collecting
the non-null subjects, computing one similarity matrix and writing the per-row
argmax labels back by original row index assigns exactly the label
`mejorEtiquetaBatch` to every non-null row and leaves null rows null — the
batching itself never changes results.  It is not equivalent to the per-row,
per-phrase variant `procesar_dataframe` of the other module, which splits on
`;`, uses level-2 candidates and applies a threshold fallback. -/
theorem procesar_dataframe_batch_equiv (sim : String → String → ℚ) (cands : List Termino)
    (rows : List (Option String)) :
    procesarDataframeBatch sim cands rows
      = rows.map (Option.map (mejorEtiquetaBatch sim cands)) :=
  batch_escritura_aux sim cands rows 0

/-- C9 counterexample: a one-row table and a fixed (constant-zero) similarity
function on which the per-row variant and the batched variant assign different
general-topic labels — the per-row variant falls back to the synthetic term
carrying the original phrase (score 0 below its 0.3 threshold) while the
batched variant always assigns the argmax level-3 label. -/
def terminoN3 : Termino := ⟨"1.1.1", "Fisica", "u", 3, []⟩

def terminoN2 : Termino := ⟨"1.1", "Ciencia", "u", 2, [terminoN3]⟩

def tesauroEjemplo : List Termino := [⟨"1", "Raiz", "u", 1, [terminoN2]⟩]

theorem procesar_dataframe_variantes_contraejemplo :
    procesarDataframe simCero (extraerTerminosNivel2 tesauroEjemplo) [some "x"] = [some "x"] ∧
    procesarDataframeBatch simCero (extraerTerminosNivel3 tesauroEjemplo) [some "x"]
      = [some "Fisica"] ∧
    ("x" : String) ≠ "Fisica" := by
  refine ⟨by decide, by decide, by decide⟩

/-!
## Claim C3: normalizers on null and malformed input
-/

/-- C3 (code-bug evidence): the author normalizer raises (`none`) on the
malformed value `","` — after `strip().rstrip(".,")` the value is empty, the
comma split leaves no non-empty part and `partes[0]` raises `IndexError` —
and the Dewey normalizer raises (`none`) on a null cell, whose truthy `nan`
passes the guard and reaches `re.sub` as a non-string (`TypeError`).  The
remaining normalizers return their documented sentinels on null input. -/
theorem normalizadores_autor_dewey_excepcion :
    normalizarNombreAutor (some ",") = none ∧
    normalizarDeweyCelda none = none ∧
    normalizarLugarPublicacion none = ("Lugar no identificado", "") ∧
    normalizarFechaPublicacion none = none ∧
    normalizarTitulo none = "Sin título" ∧
    normalizarPeriodo none = none ∧
    normalizarEditorial none = ("Editorial no identificada", "") ∧
    normalizarNombreAutor none = some "Desconocido" := by
  refine ⟨by decide, rfl, rfl, rfl, rfl, rfl, rfl, rfl⟩

/-!
## Claim C6: idempotence of the place, author and title normalizers
-/

/-- C6 (amended): the place, author and title normalizers are not idempotent
in general, but the sentinel value of each is a fixed point. -/
theorem normalizadores_sentinel_fijo :
    normalizarLugarPublicacion (some "Lugar no identificado")
      = ("Lugar no identificado", "") ∧
    normalizarNombreAutor (some "Desconocido") = some "Desconocido" ∧
    normalizarTitulo (some "Sin título") = "Sin título" := by
  refine ⟨by decide, by decide, by decide⟩

/-- C6 counterexample: all three normalizers move an already-normalized value.
The place normalizer maps "México" to "Ciudad de México" and that output to
"Ciudad de Ciudad de México" (aliases are re-applied to the original city on
every pass); the author normalizer maps "DR. House" to "Dr. House" whose
re-application strips the now re-capitalized title token, yielding "House";
the title normalizer maps "#1984" to "1984" whose re-application removes the
leading digits, yielding "". -/
theorem normalizadores_no_idempotentes :
    (normalizarLugarPublicacion (some "México")).1 = "Ciudad de México" ∧
    (normalizarLugarPublicacion (some "Ciudad de México")).1
      = "Ciudad de Ciudad de México" ∧
    normalizarNombreAutor (some "DR. House") = some "Dr. House" ∧
    normalizarNombreAutor (some "Dr. House") = some "House" ∧
    normalizarTitulo (some "#1984") = "1984" ∧
    normalizarTitulo (some "1984") = "" := by
  refine ⟨by decide, by decide, by decide, by decide, by decide, by decide⟩
